import Mathlib

/-!
Shallow embedding of the variant-generation, palette-construction, selection
and commit logic of the PNG optimizer in src/service/png_optimizer.go of
Illirgway/sboptimizeassets, together with theorems about it.

Images are embedded as the sequence of their pixels in the row-major order in
which every loop of the source walks them; Go uint8 components become natural
numbers in 0..255, and Go uint (64-bit) arithmetic is made explicit through
reduction modulo 2 ^ 64.
-/

namespace SBOpt

/-- Modulus of the Go type uint (64-bit), written as a literal. -/
def UINT_MOD : Nat := 18446744073709551616

/-- Go subtraction a - b on uint: wraparound modulo 2 ^ 64. -/
def usub64 (a b : Nat) : Nat := (a + (UINT_MOD - b % UINT_MOD)) % UINT_MOD

/-- Pixel color as in the Go library type color.NRGBA: four uint8 components
R, G, B, A embedded as naturals (intended range 0..255; 255 is math.MaxUint8). -/
structure NRGBA where
  R : Nat
  G : Nat
  B : Nat
  A : Nat
deriving DecidableEq, Repr

/-- Key list of the Go map built by countNRGBAColors: the distinct pixel
colors, collected here in first-occurrence order (the map holds exactly this
set of keys; its iteration order is unspecified and is passed separately to
the palette builder). -/
def colorKeys (pixels : List NRGBA) : List NRGBA :=
  pixels.foldl (fun acc c => if c ∈ acc then acc else acc ++ [c]) []

/-- The flag part of PNGOptimizer.countNRGBAColors: one pass over the pixels
computing (hasTransparent, hasPartAlpha, isGray).  A pixel falsifies isGray
when its R, G, B differ; a pixel with A < 255 sets hasTransparent when A = 0
and hasPartAlpha otherwise, exactly as the source loop does. -/
def nrgbaStats (pixels : List NRGBA) : Bool × Bool × Bool :=
  pixels.foldl
    (fun st c =>
      ( st.1 || (decide (c.A < 255) && decide (c.A = 0)),
        st.2.1 || (decide (c.A < 255) && decide (¬ c.A = 0)),
        st.2.2 && decide (c.R = c.G ∧ c.R = c.B ∧ c.G = c.B) ))
    (false, false, true)

/-- PNGOptimizer.countNRGBAColors: returns (n, hasTransparent, hasPartAlpha,
isGray) where n is the number of distinct colors (size of the Go map). -/
def countNRGBAColors (pixels : List NRGBA) : Nat × Bool × Bool × Bool :=
  ((colorKeys pixels).length, nrgbaStats pixels)

/-- Frequency table built by PNGOptimizer.paletteFromNRGBA: occurrences of a
color among the pixels (the content of the Go map colors). -/
def nrgbaFreq (pixels : List NRGBA) (c : NRGBA) : Nat := pixels.count c

/-- nrgbaPaletteSorter.Less from the source, verbatim: frequency comparisons
are Go uint subtractions compared with 0, hence usub64. -/
def sorterLess (colors : NRGBA → Nat) (ci cj : NRGBA) : Bool :=
  if ci.A = cj.A then
    decide (0 < usub64 (colors ci) (colors cj))
  else if ci.A = 0 then
    true
  else if cj.A = 0 then
    false
  else if ci.A < 255 ∧ cj.A = 255 then
    true
  else if (ci.A < 255 ∧ cj.A < 255) ∨ (ci.A = 255 ∧ cj.A = 255) then
    decide (0 < usub64 (colors ci) (colors cj))
  else
    false

/-- One bubbling-left step of the Go library insertion sort, phrased on the
reversed already-processed prefix: the moving element x passes the element z
to its left exactly while less x z holds, as in the loop
for j := i; j > a and Less(j, j-1); j-- of the library sort. -/
def insRev (less : α → α → Bool) (x : α) : List α → List α
  | [] => [x]
  | z :: zs => if less x z then z :: insRev less x zs else x :: z :: zs

/-- Tail of the Go library insertion sort: fold the input, keeping the sorted
prefix reversed, and reverse at the end. -/
def goInsSortRev (less : α → α → Bool) (acc : List α) : List α → List α
  | [] => acc.reverse
  | x :: xs => goInsSortRev less (insRev less x acc) xs

/-- Model of the Go library sort (sort.Sort and sort.Slice): the library
pdqsort runs exactly this insertion sort for ranges of at most 12 elements;
we take the insertion-sort base case as the sorting model, comparison for
comparison identical to the library loop on such inputs. -/
def goSort (less : α → α → Bool) (l : List α) : List α :=
  goInsSortRev less [] l

/-- PNGOptimizer.paletteFromNRGBA: builds the frequency table, enumerates the
map keys (enumeration order eo is unspecified in Go and therefore an explicit
argument here), sorts them with nrgbaPaletteSorter.  The hint argument only
sizes the Go map and has no semantic effect. -/
def paletteFromNRGBA (pixels eo : List NRGBA) (hint : Nat) : List NRGBA :=
  goSort (sorterLess (nrgbaFreq pixels)) eo

/-- PNGOptimizer.nrgba2gray: each gray sample is the R component of the
source pixel (color.Gray with Y = c.R). -/
def nrgba2gray (pixels : List NRGBA) : List Nat :=
  pixels.map (fun c => c.R)

/-- Key list of the Go map built by countGrayColors, in first-occurrence
order. -/
def grayKeys (pixels : List Nat) : List Nat :=
  pixels.foldl (fun acc c => if c ∈ acc then acc else acc ++ [c]) []

/-- PNGOptimizer.countGrayColors: number of distinct gray levels. -/
def countGrayColors (pixels : List Nat) : Nat := (grayKeys pixels).length

/-- Frequency table built by PNGOptimizer.paletteFromGray. -/
def grayFreq (pixels : List Nat) (c : Nat) : Nat := pixels.count c

/-- The sort.Slice comparator inside PNGOptimizer.paletteFromGray, verbatim:
colors[i] - colors[j] > 0 over Go uint. -/
def graySliceLess (colors : Nat → Nat) (ci cj : Nat) : Bool :=
  decide (0 < usub64 (colors ci) (colors cj))

/-- PNGOptimizer.paletteFromGray: frequency table, map-key enumeration (order
eo unspecified in Go, explicit here), sort.Slice with graySliceLess.  The
hint argument only sizes the Go map and has no semantic effect. -/
def paletteFromGray (pixels eo : List Nat) (hint : Nat) : List Nat :=
  goSort (graySliceLess (grayFreq pixels)) eo

/-- A candidate re-encoding: the encoded byte buffer and its label, as the
source struct variant with fields b and as. -/
structure Variant where
  b : List Nat
  as : String
deriving DecidableEq, Repr

/-- The error message of errNoVariants. -/
def errNoVariants : String := "unexpected error: empty variants"

/-- Loop body of variantsList.best: starting from the first variant, replace
the current best whenever a later variant is strictly shorter. -/
def bestLoop (acc : List Nat × String) (rest : List Variant) : List Nat × String :=
  rest.foldl (fun bacc vv => if vv.b.length < bacc.1.length then (vv.b, vv.as) else bacc) acc

/-- variantsList.best from the source: errNoVariants on the empty list,
otherwise the scan keeping the first strictly-smallest buffer. -/
def best (v : List Variant) : Except String (List Nat × String) :=
  match v with
  | [] => Except.error errNoVariants
  | v0 :: rest => Except.ok (bestLoop (v0.b, v0.as) rest)

/-- Requests handed to the abstract codec encoder (png.Encoder.Encode with
BestCompression).  The paletted constructors carry the palette and the source
pixels; the draw.Draw index remapping of asPaletted happens inside the
trusted codec boundary and is folded into the abstract encoder. -/
inductive EncImage where
  | nrgba (pixels : List NRGBA)
  | gray (pixels : List Nat)
  | paletted (palette : List NRGBA) (src : List NRGBA)
  | palettedG (palette : List Nat) (src : List Nat)
deriving DecidableEq, Repr

/-- Gray branch of PNGOptimizer.optimizeNRGBA: when isGray and not hasAlpha,
encode the gray conversion as one extra variant; otherwise no variant.  The
stats tuple is (n, hasTransparent, hasPartAlpha, isGray). -/
def grayStep (enc : EncImage → Except String (List Nat)) (src : List NRGBA)
    (st : Nat × Bool × Bool × Bool) : Except String (List Variant) :=
  if st.2.2.2 && !(st.2.1 || st.2.2.1) then
    match enc (EncImage.gray (nrgba2gray src)) with
    | Except.error e => Except.error e
    | Except.ok bg => Except.ok [Variant.mk bg "gray"]
  else
    Except.ok []

/-- Paletted branch of PNGOptimizer.optimizeNRGBA: when nColors is at most
256, encode the paletted conversion built from paletteFromNRGBA. -/
def palettedStep (enc : EncImage → Except String (List Nat)) (src eo : List NRGBA)
    (st : Nat × Bool × Bool × Bool) : Except String (List Variant) :=
  if st.1 ≤ 256 then
    match enc (EncImage.paletted (paletteFromNRGBA src eo st.1) src) with
    | Except.error e => Except.error e
    | Except.ok bp => Except.ok [Variant.mk bp "paletted"]
  else
    Except.ok []

/-- Variant construction part of PNGOptimizer.optimizeNRGBA: the direct
re-encode always comes first, then the optional gray variant, then the
optional paletted variant, with the error wrapping of the source. -/
def nrgbaVariants (enc : EncImage → Except String (List Nat))
    (src eo : List NRGBA) : Except String (List Variant) :=
  match enc (EncImage.nrgba src) with
  | Except.error e => Except.error ("error encode src: " ++ e)
  | Except.ok b0 =>
    match grayStep enc src (countNRGBAColors src) with
    | Except.error e => Except.error ("error encode gray: " ++ e)
    | Except.ok vg =>
      match palettedStep enc src eo (countNRGBAColors src) with
      | Except.error e => Except.error ("error encode paletted: " ++ e)
      | Except.ok vp => Except.ok (Variant.mk b0 "src (nrgba/rgb)" :: (vg ++ vp))

/-- PNGOptimizer.optimizeNRGBA: build the variant list, then select with
variantsList.best. -/
def optimizeNRGBA (enc : EncImage → Except String (List Nat))
    (src eo : List NRGBA) : Except String (List Nat × String) :=
  match nrgbaVariants enc src eo with
  | Except.error e => Except.error e
  | Except.ok vs => best vs

/-- Paletted branch of PNGOptimizer.optimizeGray: when the distinct gray
level count is at most 256, encode the paletted conversion built from
paletteFromGray. -/
def palettedGrayStep (enc : EncImage → Except String (List Nat))
    (src eo : List Nat) : Except String (List Variant) :=
  if countGrayColors src ≤ 256 then
    match enc (EncImage.palettedG (paletteFromGray src eo (countGrayColors src)) src) with
    | Except.error e => Except.error e
    | Except.ok bp => Except.ok [Variant.mk bp "paletted"]
  else
    Except.ok []

/-- Variant construction part of PNGOptimizer.optimizeGray: the direct gray
re-encode always comes first, then the optional paletted variant. -/
def grayVariants (enc : EncImage → Except String (List Nat))
    (src eo : List Nat) : Except String (List Variant) :=
  match enc (EncImage.gray src) with
  | Except.error e => Except.error ("error encode src: " ++ e)
  | Except.ok b0 =>
    match palettedGrayStep enc src eo with
    | Except.error e => Except.error ("error encode paletted: " ++ e)
    | Except.ok vp => Except.ok (Variant.mk b0 "src (gray)" :: vp)

/-- File system state for the commit policy: a map from path to the byte
content of the file there, none when the path does not exist. -/
def FS : Type := String → Option (List Nat)

/-- Point update of the file system (the effect of a successful create plus
full write at a path). -/
def fsUpdate (fs : FS) (p : String) (v : Option (List Nat)) : FS :=
  fun q => if q = p then v else fs q

/-- os.Rename src dst, the successful atomic case: dst now holds the former
content of src, src is gone, nothing else changes. -/
def fsRename (fs : FS) (src dst : String) : FS :=
  fun q => if q = dst then fs src else if q = src then none else fs q

/-- Outcome oracle for the free function savePNG: the write either succeeds,
or os.Create itself fails, or the write fails after k bytes were written. -/
inductive WriteResult where
  | ok
  | createFail
  | writeFail (k : Nat)
deriving DecidableEq, Repr

/-- Free function savePNG: os.Create then WriteTo, with the descriptor
closed by the deferred Close; the Bool is success.  A create failure touches
nothing; a failed write leaves the prefix written so far at the path; there
is no removal of the path in any branch of the source. -/
def savePNGFile (fs : FS) (path : String) (data : List Nat)
    (wr : WriteResult) : FS × Bool :=
  match wr with
  | WriteResult.ok => (fsUpdate fs path (some data), true)
  | WriteResult.createFail => (fs, false)
  | WriteResult.writeFail k => (fsUpdate fs path (some (data.take k)), false)

/-- The temporary-name suffix used by the method savePNG. -/
def tmpSuffix : String := ".pngtmp"

/-- Method PNGOptimizer.savePNG: write the buffer to path + ".pngtmp", then
os.Rename it over path; renameOk says whether the rename succeeds.  The Bool
result is overall success. -/
def savePNGCommit (fs : FS) (path : String) (data : List Nat)
    (wr : WriteResult) (renameOk : Bool) : FS × Bool :=
  let dstPath := path ++ tmpSuffix
  match savePNGFile fs dstPath data wr with
  | (fs1, false) => (fs1, false)
  | (fs1, true) =>
    if renameOk then (fsRename fs1 dstPath path, true) else (fs1, false)

/-- Tail of PNGOptimizer.Optimize after the variants are encoded: compare the
chosen length with the original size over int64, no-op when delta is not
positive, otherwise commit through the method savePNG; some saved bytes on
success, none when the commit returned an error (the Go pair (0, err)). -/
def optimizeCommit (fs : FS) (path : String) (origSize : Int)
    (encoded : List Nat) (wr : WriteResult) (renameOk : Bool) : FS × Option Nat :=
  let sz : Int := (encoded.length : Int)
  let delta : Int := origSize - sz
  if delta ≤ 0 then (fs, some 0)
  else
    match savePNGCommit fs path encoded wr renameOk with
    | (fs1, true) => (fs1, some delta.toNat)
    | (fs1, false) => (fs1, none)

/-! ## Helper lemmas -/

/-- Go uint subtraction of a value from itself is zero. -/
lemma usub64_self (a : Nat) : usub64 a a = 0 := by
  unfold usub64 UINT_MOD
  omega

/-- A path never equals itself with the temporary suffix appended. -/
lemma path_ne_tmp (p : String) : ¬ (p = p ++ tmpSuffix) := by
  intro h
  have h2 := congrArg String.length h
  rw [String.length_append] at h2
  have h3 : tmpSuffix.length = 7 := rfl
  omega

/-- Updating the file system at another path leaves a path unchanged. -/
lemma fsUpdate_at_other (fs : FS) (p q : String) (v : Option (List Nat))
    (h : ¬ q = p) : fsUpdate fs p v q = fs q := by
  unfold fsUpdate
  rw [if_neg h]

/-- The fully successful commit: temp write then rename over the original. -/
lemma savePNGCommit_ok (fs : FS) (path : String) (data : List Nat) :
    savePNGCommit fs path data WriteResult.ok true
      = (fsRename (fsUpdate fs (path ++ tmpSuffix) (some data)) (path ++ tmpSuffix) path,
         true) := rfl

/-- After a successful commit the original path holds the new bytes. -/
lemma fs_after_commit_ok (fs : FS) (path : String) (data : List Nat) :
    (savePNGCommit fs path data WriteResult.ok true).1 path = some data := by
  rw [savePNGCommit_ok]
  unfold fsRename fsUpdate
  simp

/-! ## Claims C1, C2, C3, C8: palette frequency order and commit policy -/

/-- C1: the claim says palettes produced by the palette builder are ordered
within each alpha category by strictly descending observed frequency, and
grayscale palettes entirely by descending frequency.  The code belies its
own comment (most frequent first): both comparators compute the Go uint
difference colors[i] - colors[j] and compare it with 0, which by unsigned
wraparound is true whenever the two counts merely differ.  On the gray
frequency table level 7 seen twice and level 0 seen once, enumerated by the
Go map as [7, 0], the library insertion sort therefore swaps the pair and
emits the palette [0, 7], whose entry at index 0 is strictly less frequent
than the entry at index 1; the NRGBA comparator likewise affirms both
orderings of two equal-alpha colors with different counts. -/
theorem c1_palette_descending_frequency_code_bug :
    paletteFromGray [7, 7, 0] [7, 0] 2 = [0, 7]
    ∧ grayFreq [7, 7, 0] 0 < grayFreq [7, 7, 0] 7
    ∧ sorterLess (nrgbaFreq [NRGBA.mk 1 1 1 255, NRGBA.mk 2 2 2 255, NRGBA.mk 2 2 2 255])
        (NRGBA.mk 1 1 1 255) (NRGBA.mk 2 2 2 255) = true
    ∧ sorterLess (nrgbaFreq [NRGBA.mk 1 1 1 255, NRGBA.mk 2 2 2 255, NRGBA.mk 2 2 2 255])
        (NRGBA.mk 2 2 2 255) (NRGBA.mk 1 1 1 255) = true := by
  refine ⟨by decide, by decide, by decide, by decide⟩

/-- C2: the original file is replaced exactly when the selected encoding is
strictly smaller than the original size, in which case the saved bytes are
the difference; otherwise the outcome is zero bytes saved and the file
system is left completely untouched (the no-op branch returns before any
write). -/
theorem c2_commit_saves_iff_smaller (fs : FS) (path : String)
    (orig encoded : List Nat) (hfs : fs path = some orig) :
    (encoded.length < orig.length →
      (optimizeCommit fs path ((orig.length : Int)) encoded WriteResult.ok true).1 path
          = some encoded
      ∧ (optimizeCommit fs path ((orig.length : Int)) encoded WriteResult.ok true).2
          = some (orig.length - encoded.length))
    ∧ (orig.length ≤ encoded.length →
      ∀ (wr : WriteResult) (renameOk : Bool),
        optimizeCommit fs path ((orig.length : Int)) encoded wr renameOk = (fs, some 0)) := by
  constructor
  · intro h
    have hδ : ¬ ((orig.length : Int) - (encoded.length : Int) ≤ 0) := by omega
    unfold optimizeCommit
    rw [if_neg hδ, savePNGCommit_ok]
    refine ⟨fs_after_commit_ok fs path encoded, ?_⟩
    have : ((orig.length : Int) - (encoded.length : Int)).toNat
        = orig.length - encoded.length := by omega
    rw [this]
  · intro h wr renameOk
    have hδ : (orig.length : Int) - (encoded.length : Int) ≤ 0 := by omega
    unfold optimizeCommit
    rw [if_pos hδ]

/-- C2 witness at a concrete file system and buffers. -/
theorem c2_commit_saves_iff_smaller_witness :
    (optimizeCommit (fun q => if q = "a" then some [1, 2, 3] else none) "a"
        ((([1, 2, 3] : List Nat).length : Int)) [9] WriteResult.ok true).2 = some 2 := by
  have h := c2_commit_saves_iff_smaller
    (fun q => if q = "a" then some [1, 2, 3] else none) "a" [1, 2, 3] [9] (by decide)
  exact (h.1 (by decide)).2

/-- C3: whatever the failure of the commit step (create failure, partial
write failure, or a failing rename), the original path keeps its previous
content; and in every outcome the original path holds either its old content
or the complete new bytes after a successful rename, never a partial write. -/
theorem c3_commit_failure_preserves_original (fs : FS) (path : String)
    (data : List Nat) (wr : WriteResult) (renameOk : Bool) :
    ((savePNGCommit fs path data wr renameOk).2 = false →
      (savePNGCommit fs path data wr renameOk).1 path = fs path)
    ∧ ((savePNGCommit fs path data wr renameOk).1 path = fs path
       ∨ ((savePNGCommit fs path data wr renameOk).1 path = some data
           ∧ (savePNGCommit fs path data wr renameOk).2 = true)) := by
  cases wr with
  | ok =>
    cases renameOk with
    | true =>
      refine ⟨fun h => absurd h (by rw [savePNGCommit_ok]; simp), ?_⟩
      exact Or.inr ⟨fs_after_commit_ok fs path data, rfl⟩
    | false =>
      have hval : (savePNGCommit fs path data WriteResult.ok false).1 path = fs path :=
        fsUpdate_at_other fs (path ++ tmpSuffix) path (some data) (path_ne_tmp path)
      exact ⟨fun _ => hval, Or.inl hval⟩
  | createFail => exact ⟨fun _ => rfl, Or.inl rfl⟩
  | writeFail k =>
    have hval : (savePNGCommit fs path data (WriteResult.writeFail k) renameOk).1 path
        = fs path :=
      fsUpdate_at_other fs (path ++ tmpSuffix) path (some (data.take k)) (path_ne_tmp path)
    exact ⟨fun _ => hval, Or.inl hval⟩

/-- C3 witness: a failing rename at a concrete state leaves the original
untouched. -/
theorem c3_commit_failure_preserves_original_witness :
    (savePNGCommit (fun _ => none) "b" [1, 2] WriteResult.ok false).1 "b" = none := by
  have h := c3_commit_failure_preserves_original (fun _ => none) "b" [1, 2]
    WriteResult.ok false
  exact h.1 rfl

/-- C8 counterexample: the claim says a failed temp-file write removes the
temporary path.  In the code savePNG has no removal in any branch: after a
write that fails having written two of three bytes, the temporary path still
holds those two bytes instead of being absent. -/
theorem c8_tmp_removed_counterexample :
    (savePNGCommit (fun _ => none) "a" [5, 6, 7] (WriteResult.writeFail 2) true).1
        ("a" ++ tmpSuffix) = some [5, 6]
    ∧ ¬ ((savePNGCommit (fun _ => none) "a" [5, 6, 7] (WriteResult.writeFail 2) true).1
        ("a" ++ tmpSuffix) = none) := by
  refine ⟨by decide, by decide⟩

/-- C8 amended: when the temp-file write fails before the rename, the commit
reports failure and the original is unchanged, but the temporary path is not
removed: it keeps the bytes written before the failure. -/
theorem c8_write_failure_leaves_tmp (fs : FS) (path : String) (data : List Nat)
    (k : Nat) (renameOk : Bool) :
    (savePNGCommit fs path data (WriteResult.writeFail k) renameOk).2 = false
    ∧ (savePNGCommit fs path data (WriteResult.writeFail k) renameOk).1 (path ++ tmpSuffix)
        = some (data.take k)
    ∧ (savePNGCommit fs path data (WriteResult.writeFail k) renameOk).1 path = fs path := by
  refine ⟨rfl, ?_, ?_⟩
  · show fsUpdate fs (path ++ tmpSuffix) (some (data.take k)) (path ++ tmpSuffix)
        = some (data.take k)
    unfold fsUpdate
    simp
  · exact fsUpdate_at_other fs (path ++ tmpSuffix) path (some (data.take k)) (path_ne_tmp path)

/-! ## Claim C5: the selector -/

/-- Invariant of the loop of variantsList.best: the scan either keeps the
starting accumulator, which is then no longer than every scanned buffer, or
ends on the first scanned variant of globally minimal buffer length, every
earlier scanned variant being strictly longer. -/
lemma bestLoop_spec (rest : List Variant) : ∀ acc : List Nat × String,
    (bestLoop acc rest = acc ∧ ∀ vv ∈ rest, acc.1.length ≤ vv.b.length)
    ∨ (∃ i, ∃ h : i < rest.length,
        bestLoop acc rest = ((rest.get ⟨i, h⟩).b, (rest.get ⟨i, h⟩).as)
        ∧ (rest.get ⟨i, h⟩).b.length < acc.1.length
        ∧ (∀ vv ∈ rest, (rest.get ⟨i, h⟩).b.length ≤ vv.b.length)
        ∧ (∀ j, ∀ hj : j < rest.length, j < i →
            (rest.get ⟨i, h⟩).b.length < (rest.get ⟨j, hj⟩).b.length)) := by
  induction rest with
  | nil =>
    intro acc
    exact Or.inl ⟨rfl, by simp⟩
  | cons x xs ih =>
    intro acc
    have hstep : bestLoop acc (x :: xs)
        = bestLoop (if x.b.length < acc.1.length then (x.b, x.as) else acc) xs := by
      unfold bestLoop
      rw [List.foldl_cons]
    by_cases hx : x.b.length < acc.1.length
    · rw [if_pos hx] at hstep
      rcases ih (x.b, x.as) with ⟨heq, hmin⟩ | ⟨i, hi, heq, hlt, hmin, hearly⟩
      · refine Or.inr ⟨0, Nat.succ_pos _, ?_, hx, ?_, ?_⟩
        · show bestLoop acc (x :: xs) = (x.b, x.as)
          rw [hstep, heq]
        · intro vv hvv
          show x.b.length ≤ vv.b.length
          rcases List.mem_cons.mp hvv with h | h
          · rw [h]
          · exact hmin vv h
        · intro j hj hji
          omega
      · refine Or.inr ⟨i + 1, Nat.succ_lt_succ hi, ?_, ?_, ?_, ?_⟩
        · show bestLoop acc (x :: xs) = ((xs.get ⟨i, hi⟩).b, (xs.get ⟨i, hi⟩).as)
          rw [hstep, heq]
        · show (xs.get ⟨i, hi⟩).b.length < acc.1.length
          exact Nat.lt_trans hlt hx
        · intro vv hvv
          show (xs.get ⟨i, hi⟩).b.length ≤ vv.b.length
          rcases List.mem_cons.mp hvv with h | h
          · rw [h]
            exact Nat.le_of_lt hlt
          · exact hmin vv h
        · intro j hj hji
          cases j with
          | zero =>
            show (xs.get ⟨i, hi⟩).b.length < x.b.length
            exact hlt
          | succ j =>
            show (xs.get ⟨i, hi⟩).b.length
                < (xs.get ⟨j, Nat.lt_of_succ_lt_succ hj⟩).b.length
            exact hearly j (Nat.lt_of_succ_lt_succ hj) (Nat.lt_of_succ_lt_succ hji)
    · rw [if_neg hx] at hstep
      rcases ih acc with ⟨heq, hmin⟩ | ⟨i, hi, heq, hlt, hmin, hearly⟩
      · refine Or.inl ⟨hstep.trans heq, ?_⟩
        intro vv hvv
        rcases List.mem_cons.mp hvv with h | h
        · rw [h]
          exact Nat.le_of_not_lt hx
        · exact hmin vv h
      · refine Or.inr ⟨i + 1, Nat.succ_lt_succ hi, ?_, ?_, ?_, ?_⟩
        · show bestLoop acc (x :: xs) = ((xs.get ⟨i, hi⟩).b, (xs.get ⟨i, hi⟩).as)
          rw [hstep, heq]
        · show (xs.get ⟨i, hi⟩).b.length < acc.1.length
          exact hlt
        · intro vv hvv
          show (xs.get ⟨i, hi⟩).b.length ≤ vv.b.length
          rcases List.mem_cons.mp hvv with h | h
          · rw [h]
            exact Nat.le_of_lt (Nat.lt_of_lt_of_le hlt (Nat.le_of_not_lt hx))
          · exact hmin vv h
        · intro j hj hji
          cases j with
          | zero =>
            show (xs.get ⟨i, hi⟩).b.length < x.b.length
            exact Nat.lt_of_lt_of_le hlt (Nat.le_of_not_lt hx)
          | succ j =>
            show (xs.get ⟨i, hi⟩).b.length
                < (xs.get ⟨j, Nat.lt_of_succ_lt_succ hj⟩).b.length
            exact hearly j (Nat.lt_of_succ_lt_succ hj) (Nat.lt_of_succ_lt_succ hji)

/-- C5: on a non-empty variant list, best returns the buffer and label of the
variant of smallest encoded length, and on ties the earliest-generated one:
every variant strictly before the chosen index is strictly longer. -/
theorem c5_best_picks_first_minimum (v : List Variant) (hne : ¬ v = []) :
    ∃ i, ∃ h : i < v.length,
      best v = Except.ok ((v.get ⟨i, h⟩).b, (v.get ⟨i, h⟩).as)
      ∧ (∀ vv ∈ v, (v.get ⟨i, h⟩).b.length ≤ vv.b.length)
      ∧ (∀ j, ∀ hj : j < v.length, j < i →
          (v.get ⟨i, h⟩).b.length < (v.get ⟨j, hj⟩).b.length) := by
  cases v with
  | nil => exact absurd rfl hne
  | cons v0 rest =>
    rcases bestLoop_spec rest (v0.b, v0.as) with ⟨heq, hmin⟩ | ⟨i, hi, heq, hlt, hmin, hearly⟩
    · refine ⟨0, Nat.succ_pos _, ?_, ?_, ?_⟩
      · show Except.ok (bestLoop (v0.b, v0.as) rest) = Except.ok (v0.b, v0.as)
        rw [heq]
      · intro vv hvv
        show v0.b.length ≤ vv.b.length
        rcases List.mem_cons.mp hvv with h | h
        · rw [h]
        · exact hmin vv h
      · intro j hj hji
        omega
    · refine ⟨i + 1, Nat.succ_lt_succ hi, ?_, ?_, ?_⟩
      · show Except.ok (bestLoop (v0.b, v0.as) rest)
            = Except.ok ((rest.get ⟨i, hi⟩).b, (rest.get ⟨i, hi⟩).as)
        rw [heq]
      · intro vv hvv
        show (rest.get ⟨i, hi⟩).b.length ≤ vv.b.length
        rcases List.mem_cons.mp hvv with h | h
        · rw [h]
          exact Nat.le_of_lt hlt
        · exact hmin vv h
      · intro j hj hji
        cases j with
        | zero =>
          show (rest.get ⟨i, hi⟩).b.length < v0.b.length
          exact hlt
        | succ j =>
          show (rest.get ⟨i, hi⟩).b.length
              < (rest.get ⟨j, Nat.lt_of_succ_lt_succ hj⟩).b.length
          exact hearly j (Nat.lt_of_succ_lt_succ hj) (Nat.lt_of_succ_lt_succ hji)

/-- C5 witness on a concrete three-variant list whose minimum is attained
twice; best picks the earlier of the two minimal variants. -/
theorem c5_best_picks_first_minimum_witness :
    ∃ i, ∃ h : i < ([Variant.mk [1, 2] "a", Variant.mk [3] "b", Variant.mk [4] "c"]
        : List Variant).length,
      best [Variant.mk [1, 2] "a", Variant.mk [3] "b", Variant.mk [4] "c"]
        = Except.ok ((([Variant.mk [1, 2] "a", Variant.mk [3] "b", Variant.mk [4] "c"]
            : List Variant).get ⟨i, h⟩).b,
          (([Variant.mk [1, 2] "a", Variant.mk [3] "b", Variant.mk [4] "c"]
            : List Variant).get ⟨i, h⟩).as)
      ∧ (∀ vv ∈ ([Variant.mk [1, 2] "a", Variant.mk [3] "b", Variant.mk [4] "c"]
            : List Variant),
          (([Variant.mk [1, 2] "a", Variant.mk [3] "b", Variant.mk [4] "c"]
            : List Variant).get ⟨i, h⟩).b.length ≤ vv.b.length)
      ∧ (∀ j, ∀ hj : j < ([Variant.mk [1, 2] "a", Variant.mk [3] "b", Variant.mk [4] "c"]
            : List Variant).length, j < i →
          (([Variant.mk [1, 2] "a", Variant.mk [3] "b", Variant.mk [4] "c"]
            : List Variant).get ⟨i, h⟩).b.length
            < (([Variant.mk [1, 2] "a", Variant.mk [3] "b", Variant.mk [4] "c"]
              : List Variant).get ⟨j, hj⟩).b.length) :=
  c5_best_picks_first_minimum
    [Variant.mk [1, 2] "a", Variant.mk [3] "b", Variant.mk [4] "c"] (by decide)

/-! ## Equation lemmas for the variant generators -/

/-- A direct-encode failure makes optimizeNRGBA fail with the src message. -/
lemma nrgbaVariants_err_src (enc : EncImage → Except String (List Nat))
    (src eo : List NRGBA) (e : String) (h : enc (EncImage.nrgba src) = Except.error e) :
    nrgbaVariants enc src eo = Except.error ("error encode src: " ++ e) := by
  unfold nrgbaVariants
  rw [h]

/-- A gray-encode failure makes optimizeNRGBA fail with the gray message. -/
lemma nrgbaVariants_err_gray (enc : EncImage → Except String (List Nat))
    (src eo : List NRGBA) (b0 : List Nat) (e : String)
    (h1 : enc (EncImage.nrgba src) = Except.ok b0)
    (h2 : grayStep enc src (countNRGBAColors src) = Except.error e) :
    nrgbaVariants enc src eo = Except.error ("error encode gray: " ++ e) := by
  unfold nrgbaVariants
  rw [h1, h2]

/-- A paletted-encode failure makes optimizeNRGBA fail with its message. -/
lemma nrgbaVariants_err_pal (enc : EncImage → Except String (List Nat))
    (src eo : List NRGBA) (b0 : List Nat) (vg : List Variant) (e : String)
    (h1 : enc (EncImage.nrgba src) = Except.ok b0)
    (h2 : grayStep enc src (countNRGBAColors src) = Except.ok vg)
    (h3 : palettedStep enc src eo (countNRGBAColors src) = Except.error e) :
    nrgbaVariants enc src eo = Except.error ("error encode paletted: " ++ e) := by
  unfold nrgbaVariants
  rw [h1, h2, h3]

/-- When every encode succeeds, the variant list is the direct variant
followed by the optional gray and paletted ones, in generation order. -/
lemma nrgbaVariants_ok_shape (enc : EncImage → Except String (List Nat))
    (src eo : List NRGBA) (b0 : List Nat) (vg vp : List Variant)
    (h1 : enc (EncImage.nrgba src) = Except.ok b0)
    (h2 : grayStep enc src (countNRGBAColors src) = Except.ok vg)
    (h3 : palettedStep enc src eo (countNRGBAColors src) = Except.ok vp) :
    nrgbaVariants enc src eo
      = Except.ok (Variant.mk b0 "src (nrgba/rgb)" :: (vg ++ vp)) := by
  unfold nrgbaVariants
  rw [h1, h2, h3]

/-- A successful paletted step under the 256-color bound yields exactly one
paletted variant carrying the palette built from the full frequency table. -/
lemma palettedStep_ok_inv (enc : EncImage → Except String (List Nat))
    (src eo : List NRGBA) (st : Nat × Bool × Bool × Bool) (vp : List Variant)
    (hn : st.1 ≤ 256) (h : palettedStep enc src eo st = Except.ok vp) :
    ∃ bp, enc (EncImage.paletted (paletteFromNRGBA src eo st.1) src) = Except.ok bp
      ∧ vp = [Variant.mk bp "paletted"] := by
  unfold palettedStep at h
  rw [if_pos hn] at h
  cases h4 : enc (EncImage.paletted (paletteFromNRGBA src eo st.1) src) with
  | error e =>
    rw [h4] at h
    exact Except.noConfusion h
  | ok bp =>
    rw [h4] at h
    exact ⟨bp, rfl, (Except.ok.inj h).symm⟩

/-- The successful shape of optimizeGray variant construction. -/
lemma grayVariants_ok_shape (enc : EncImage → Except String (List Nat))
    (gsrc geo : List Nat) (b0 : List Nat) (vp : List Variant)
    (h1 : enc (EncImage.gray gsrc) = Except.ok b0)
    (h2 : palettedGrayStep enc gsrc geo = Except.ok vp) :
    grayVariants enc gsrc geo = Except.ok (Variant.mk b0 "src (gray)" :: vp) := by
  unfold grayVariants
  rw [h1, h2]

/-- A successful gray paletted step under the 256-level bound yields exactly
one paletted variant. -/
lemma palettedGrayStep_ok_inv (enc : EncImage → Except String (List Nat))
    (gsrc geo : List Nat) (vp : List Variant)
    (hn : countGrayColors gsrc ≤ 256) (h : palettedGrayStep enc gsrc geo = Except.ok vp) :
    ∃ bp, enc (EncImage.palettedG (paletteFromGray gsrc geo (countGrayColors gsrc)) gsrc)
        = Except.ok bp
      ∧ vp = [Variant.mk bp "paletted"] := by
  unfold palettedGrayStep at h
  rw [if_pos hn] at h
  cases h4 : enc (EncImage.palettedG (paletteFromGray gsrc geo (countGrayColors gsrc)) gsrc) with
  | error e =>
    rw [h4] at h
    exact Except.noConfusion h
  | ok bp =>
    rw [h4] at h
    exact ⟨bp, rfl, (Except.ok.inj h).symm⟩

/-! ## Claim C6: the variant set is never empty -/

/-- A string that starts with the letter e never equals errNoVariants, which
starts with the letter u, whatever follows the prefix. -/
lemma append_ne_errNoVariants (p e : String) (hp : p.data.head? = some 'e') :
    ¬ (p ++ e = errNoVariants) := by
  intro h
  have hd : (p ++ e).data = errNoVariants.data := congrArg String.data h
  have hd2 : (p ++ e).data = p.data ++ e.data := by
    cases p
    cases e
    rfl
  rw [hd2] at hd
  have hh : (p.data ++ e.data).head? = some 'e' := by
    cases hpd : p.data with
    | nil =>
      rw [hpd] at hp
      exact absurd hp (by simp)
    | cons c cs =>
      rw [hpd] at hp
      simp only [List.head?_cons, Option.some.injEq] at hp
      simp [hp]
  rw [hd] at hh
  have hu : errNoVariants.data.head? = some 'u' := rfl
  rw [hu] at hh
  simp at hh

/-- C6: for every decoded truecolor image the generated variant list starts
with the direct re-encode and has at least one element, and the optimization
flow can never surface the errNoVariants error of the selector, whatever the
encoder does. -/
theorem c6_variant_set_nonempty (enc : EncImage → Except String (List Nat))
    (src eo : List NRGBA) :
    ¬ (optimizeNRGBA enc src eo = Except.error errNoVariants)
    ∧ (∀ vs, nrgbaVariants enc src eo = Except.ok vs →
        ∃ b0, enc (EncImage.nrgba src) = Except.ok b0
          ∧ vs.head? = some (Variant.mk b0 "src (nrgba/rgb)")
          ∧ 1 ≤ vs.length) := by
  constructor
  · intro hbad
    unfold optimizeNRGBA at hbad
    cases h1 : enc (EncImage.nrgba src) with
    | error e =>
      rw [nrgbaVariants_err_src enc src eo e h1] at hbad
      exact append_ne_errNoVariants "error encode src: " e rfl (Except.error.inj hbad)
    | ok b0 =>
      cases h2 : grayStep enc src (countNRGBAColors src) with
      | error e =>
        rw [nrgbaVariants_err_gray enc src eo b0 e h1 h2] at hbad
        exact append_ne_errNoVariants "error encode gray: " e rfl (Except.error.inj hbad)
      | ok vg =>
        cases h3 : palettedStep enc src eo (countNRGBAColors src) with
        | error e =>
          rw [nrgbaVariants_err_pal enc src eo b0 vg e h1 h2 h3] at hbad
          exact append_ne_errNoVariants "error encode paletted: " e rfl
            (Except.error.inj hbad)
        | ok vp =>
          rw [nrgbaVariants_ok_shape enc src eo b0 vg vp h1 h2 h3] at hbad
          exact Except.noConfusion hbad
  · intro vs hvs
    cases h1 : enc (EncImage.nrgba src) with
    | error e =>
      exact Except.noConfusion ((nrgbaVariants_err_src enc src eo e h1).symm.trans hvs)
    | ok b0 =>
      cases h2 : grayStep enc src (countNRGBAColors src) with
      | error e =>
        exact Except.noConfusion
          ((nrgbaVariants_err_gray enc src eo b0 e h1 h2).symm.trans hvs)
      | ok vg =>
        cases h3 : palettedStep enc src eo (countNRGBAColors src) with
        | error e =>
          exact Except.noConfusion
            ((nrgbaVariants_err_pal enc src eo b0 vg e h1 h2 h3).symm.trans hvs)
        | ok vp =>
          have hvv := Except.ok.inj
            ((nrgbaVariants_ok_shape enc src eo b0 vg vp h1 h2 h3).symm.trans hvs)
          refine ⟨b0, rfl, ?_, ?_⟩
          · rw [← hvv]
            rfl
          · rw [← hvv]
            simp

/-- C6 witness with the trivial encoder on the empty image. -/
theorem c6_variant_set_nonempty_witness :
    ¬ (optimizeNRGBA (fun _ => Except.ok []) [] [] = Except.error errNoVariants)
    ∧ (∀ vs, nrgbaVariants (fun _ => Except.ok []) [] [] = Except.ok vs →
        ∃ b0, (Except.ok [] : Except String (List Nat)) = Except.ok b0
          ∧ vs.head? = some (Variant.mk b0 "src (nrgba/rgb)")
          ∧ 1 ≤ vs.length) :=
  c6_variant_set_nonempty (fun _ => Except.ok []) [] []

/-! ## Claim C7: an indexed variant is generated when at most 256 colors -/

/-- C7: whenever the variant construction succeeds and the distinct color
count is at most 256, the produced set contains a paletted variant; this
holds for the truecolor path and for the grayscale path alike. -/
theorem c7_indexed_variant_when_le_256 (enc : EncImage → Except String (List Nat))
    (src eo : List NRGBA) (gsrc geo : List Nat) (vs ws : List Variant)
    (hv : nrgbaVariants enc src eo = Except.ok vs)
    (hn : (countNRGBAColors src).1 ≤ 256)
    (hw : grayVariants enc gsrc geo = Except.ok ws)
    (hm : countGrayColors gsrc ≤ 256) :
    (∃ bp, Variant.mk bp "paletted" ∈ vs) ∧ (∃ bp, Variant.mk bp "paletted" ∈ ws) := by
  constructor
  · cases h1 : enc (EncImage.nrgba src) with
    | error e =>
      exact Except.noConfusion ((nrgbaVariants_err_src enc src eo e h1).symm.trans hv)
    | ok b0 =>
      cases h2 : grayStep enc src (countNRGBAColors src) with
      | error e =>
        exact Except.noConfusion
          ((nrgbaVariants_err_gray enc src eo b0 e h1 h2).symm.trans hv)
      | ok vg =>
        cases h3 : palettedStep enc src eo (countNRGBAColors src) with
        | error e =>
          exact Except.noConfusion
            ((nrgbaVariants_err_pal enc src eo b0 vg e h1 h2 h3).symm.trans hv)
        | ok vp =>
          have hvv := Except.ok.inj
            ((nrgbaVariants_ok_shape enc src eo b0 vg vp h1 h2 h3).symm.trans hv)
          rcases palettedStep_ok_inv enc src eo (countNRGBAColors src) vp hn h3
            with ⟨bp, _, hvp⟩
          refine ⟨bp, ?_⟩
          rw [← hvv, hvp]
          simp
  · cases h1 : enc (EncImage.gray gsrc) with
    | error e =>
      have : grayVariants enc gsrc geo = Except.error ("error encode src: " ++ e) := by
        unfold grayVariants
        rw [h1]
      exact Except.noConfusion (this.symm.trans hw)
    | ok b0 =>
      cases h2 : palettedGrayStep enc gsrc geo with
      | error e =>
        have : grayVariants enc gsrc geo
            = Except.error ("error encode paletted: " ++ e) := by
          unfold grayVariants
          rw [h1, h2]
        exact Except.noConfusion (this.symm.trans hw)
      | ok vp =>
        have hvv := Except.ok.inj
          ((grayVariants_ok_shape enc gsrc geo b0 vp h1 h2).symm.trans hw)
        rcases palettedGrayStep_ok_inv enc gsrc geo vp hm h2 with ⟨bp, _, hvp⟩
        refine ⟨bp, ?_⟩
        rw [← hvv, hvp]
        simp

/-- C7 witness with the trivial encoder on empty images (zero colors). -/
theorem c7_indexed_variant_when_le_256_witness :
    (∃ bp, Variant.mk bp "paletted"
        ∈ [Variant.mk [] "src (nrgba/rgb)", Variant.mk [] "gray", Variant.mk [] "paletted"])
    ∧ (∃ bp, Variant.mk bp "paletted"
        ∈ [Variant.mk ([] : List Nat) "src (gray)", Variant.mk [] "paletted"]) :=
  c7_indexed_variant_when_le_256 (fun _ => Except.ok []) [] [] [] []
    [Variant.mk [] "src (nrgba/rgb)", Variant.mk [] "gray", Variant.mk [] "paletted"]
    [Variant.mk [] "src (gray)", Variant.mk [] "paletted"]
    (by rfl) (by decide) (by rfl) (by decide)

/-! ## Claims C9 and C10: classifier corner cases -/

/-- Membership in the fold that collects map keys in first-occurrence order. -/
lemma mem_foldInsert {α : Type} [DecidableEq α] (l : List α) :
    ∀ (acc : List α) (c : α),
      c ∈ l.foldl (fun acc c => if c ∈ acc then acc else acc ++ [c]) acc
        ↔ c ∈ acc ∨ c ∈ l := by
  induction l with
  | nil =>
    intro acc c
    simp
  | cons x xs ih =>
    intro acc c
    rw [List.foldl_cons, ih]
    by_cases hx : x ∈ acc
    · rw [if_pos hx]
      constructor
      · intro h
        rcases h with h | h
        · exact Or.inl h
        · exact Or.inr (List.mem_cons_of_mem x h)
      · intro h
        rcases h with h | h
        · exact Or.inl h
        · rcases List.mem_cons.mp h with h | h
          · rw [h]
            exact Or.inl hx
          · exact Or.inr h
    · rw [if_neg hx]
      constructor
      · intro h
        rcases h with h | h
        · rcases List.mem_append.mp h with h | h
          · exact Or.inl h
          · rcases List.mem_singleton.mp h with h
            rw [h]
            exact Or.inr (List.mem_cons_self x xs)
        · exact Or.inr (List.mem_cons_of_mem x h)
      · intro h
        rcases h with h | h
        · exact Or.inl (List.mem_append.mpr (Or.inl h))
        · rcases List.mem_cons.mp h with h | h
          · exact Or.inl (List.mem_append.mpr (Or.inr (List.mem_singleton.mpr h)))
          · exact Or.inr h

/-- A color is a key of the classifier map exactly when it occurs among the
pixels. -/
lemma mem_colorKeys (pixels : List NRGBA) (c : NRGBA) :
    c ∈ colorKeys pixels ↔ c ∈ pixels := by
  unfold colorKeys
  rw [mem_foldInsert]
  simp

/-- Membership through one bubbling step of the insertion sort. -/
lemma mem_insRev {α : Type} (less : α → α → Bool) (x y : α) :
    ∀ l : List α, y ∈ insRev less x l ↔ y = x ∨ y ∈ l := by
  intro l
  induction l with
  | nil =>
    simp [insRev]
  | cons z zs ih =>
    cases hxz : less x z with
    | false =>
      simp [insRev, hxz]
    | true =>
      simp [insRev, hxz, ih]
      tauto

/-- Membership through the insertion sort accumulator. -/
lemma mem_goInsSortRev {α : Type} (less : α → α → Bool) (y : α) :
    ∀ (l acc : List α), y ∈ goInsSortRev less acc l ↔ y ∈ acc ∨ y ∈ l := by
  intro l
  induction l with
  | nil =>
    intro acc
    simp [goInsSortRev]
  | cons x xs ih =>
    intro acc
    have h1 : goInsSortRev less acc (x :: xs)
        = goInsSortRev less (insRev less x acc) xs := rfl
    rw [h1, ih (insRev less x acc), mem_insRev]
    simp [List.mem_cons]
    tauto

/-- The sort model permutes its input as far as membership is concerned. -/
lemma mem_goSort {α : Type} (less : α → α → Bool) (y : α) (l : List α) :
    y ∈ goSort less l ↔ y ∈ l := by
  unfold goSort
  rw [mem_goInsSortRev]
  simp

/-- A list holding two distinct elements has length at least two. -/
lemma two_le_length {α : Type} {l : List α} {a b : α} (ha : a ∈ l) (hb : b ∈ l)
    (hne : ¬ a = b) : 2 ≤ l.length := by
  rcases List.append_of_mem ha with ⟨s, t, rfl⟩
  rcases List.mem_append.mp hb with h | h
  · have hs := List.length_pos_of_mem h
    rw [List.length_append]
    simp only [List.length_cons]
    omega
  · rcases List.mem_cons.mp h with h | h
    · exact absurd h.symm hne
    · have ht := List.length_pos_of_mem h
      rw [List.length_append]
      simp only [List.length_cons]
      omega

/-- C9: two fully transparent colors with different RGB components are kept
as two distinct keys by the classifier, so the distinct-color count charged
against the 256-entry limit counts both, and the palette builder gives each
its own entry in any palette built from an enumeration containing them. -/
theorem c9_transparent_colors_not_unified (pixels eo : List NRGBA) (hint : Nat)
    (ca cb : NRGBA) (h1 : ca ∈ pixels) (h2 : cb ∈ pixels)
    (ha1 : ca.A = 0) (ha2 : cb.A = 0) (hne : ¬ ca = cb)
    (he1 : ca ∈ eo) (he2 : cb ∈ eo) :
    (ca ∈ colorKeys pixels ∧ cb ∈ colorKeys pixels
      ∧ 2 ≤ (countNRGBAColors pixels).1)
    ∧ (ca ∈ paletteFromNRGBA pixels eo hint ∧ cb ∈ paletteFromNRGBA pixels eo hint
      ∧ 2 ≤ (paletteFromNRGBA pixels eo hint).length) := by
  have hk1 : ca ∈ colorKeys pixels := (mem_colorKeys pixels ca).mpr h1
  have hk2 : cb ∈ colorKeys pixels := (mem_colorKeys pixels cb).mpr h2
  have hp1 : ca ∈ paletteFromNRGBA pixels eo hint := by
    unfold paletteFromNRGBA
    exact (mem_goSort _ ca eo).mpr he1
  have hp2 : cb ∈ paletteFromNRGBA pixels eo hint := by
    unfold paletteFromNRGBA
    exact (mem_goSort _ cb eo).mpr he2
  exact ⟨⟨hk1, hk2, two_le_length hk1 hk2 hne⟩,
    ⟨hp1, hp2, two_le_length hp1 hp2 hne⟩⟩

/-- C9 witness: a two-pixel image whose pixels are both fully transparent
but have different RGB components. -/
theorem c9_transparent_colors_not_unified_witness :
    (NRGBA.mk 1 2 3 0 ∈ colorKeys [NRGBA.mk 1 2 3 0, NRGBA.mk 4 5 6 0]
      ∧ NRGBA.mk 4 5 6 0 ∈ colorKeys [NRGBA.mk 1 2 3 0, NRGBA.mk 4 5 6 0]
      ∧ 2 ≤ (countNRGBAColors [NRGBA.mk 1 2 3 0, NRGBA.mk 4 5 6 0]).1)
    ∧ (NRGBA.mk 1 2 3 0
        ∈ paletteFromNRGBA [NRGBA.mk 1 2 3 0, NRGBA.mk 4 5 6 0]
            [NRGBA.mk 1 2 3 0, NRGBA.mk 4 5 6 0] 2
      ∧ NRGBA.mk 4 5 6 0
        ∈ paletteFromNRGBA [NRGBA.mk 1 2 3 0, NRGBA.mk 4 5 6 0]
            [NRGBA.mk 1 2 3 0, NRGBA.mk 4 5 6 0] 2
      ∧ 2 ≤ (paletteFromNRGBA [NRGBA.mk 1 2 3 0, NRGBA.mk 4 5 6 0]
            [NRGBA.mk 1 2 3 0, NRGBA.mk 4 5 6 0] 2).length) :=
  c9_transparent_colors_not_unified
    [NRGBA.mk 1 2 3 0, NRGBA.mk 4 5 6 0] [NRGBA.mk 1 2 3 0, NRGBA.mk 4 5 6 0] 2
    (NRGBA.mk 1 2 3 0) (NRGBA.mk 4 5 6 0)
    (by decide) (by decide) (by decide) (by decide) (by decide) (by decide) (by decide)

/-- C10: a pixelless truecolor image classifies as zero colors, no
transparency, no partial alpha, and trivially gray, so all three variants
are generated: direct, gray, and paletted with the empty palette. -/
theorem c10_empty_image_variants (enc : EncImage → Except String (List Nat))
    (b0 bg bp : List Nat)
    (h0 : enc (EncImage.nrgba []) = Except.ok b0)
    (hg : enc (EncImage.gray []) = Except.ok bg)
    (hp : enc (EncImage.paletted [] []) = Except.ok bp) :
    countNRGBAColors [] = (0, false, false, true)
    ∧ nrgbaVariants enc [] [] = Except.ok
        [Variant.mk b0 "src (nrgba/rgb)", Variant.mk bg "gray",
         Variant.mk bp "paletted"] := by
  refine ⟨rfl, ?_⟩
  have hg2 : enc (EncImage.gray (nrgba2gray [])) = Except.ok bg := hg
  have hp2 : enc (EncImage.paletted
      (paletteFromNRGBA [] [] (countNRGBAColors []).1) []) = Except.ok bp := hp
  have hgs : grayStep enc [] (countNRGBAColors []) = Except.ok [Variant.mk bg "gray"] := by
    have h : grayStep enc [] (countNRGBAColors [])
        = match enc (EncImage.gray (nrgba2gray [])) with
          | Except.error e => Except.error e
          | Except.ok bg => Except.ok [Variant.mk bg "gray"] := rfl
    rw [h, hg2]
  have hps : palettedStep enc [] [] (countNRGBAColors [])
      = Except.ok [Variant.mk bp "paletted"] := by
    have h : palettedStep enc [] [] (countNRGBAColors [])
        = match enc (EncImage.paletted
            (paletteFromNRGBA [] [] (countNRGBAColors []).1) []) with
          | Except.error e => Except.error e
          | Except.ok bp => Except.ok [Variant.mk bp "paletted"] := rfl
    rw [h, hp2]
  rw [nrgbaVariants_ok_shape enc [] [] b0 [Variant.mk bg "gray"]
    [Variant.mk bp "paletted"] h0 hgs hps]
  rfl

/-- C10 witness with the trivial encoder. -/
theorem c10_empty_image_variants_witness :
    countNRGBAColors [] = (0, false, false, true)
    ∧ nrgbaVariants (fun _ => Except.ok []) [] [] = Except.ok
        [Variant.mk [] "src (nrgba/rgb)", Variant.mk [] "gray",
         Variant.mk [] "paletted"] :=
  c10_empty_image_variants (fun _ => Except.ok []) [] [] [] rfl rfl rfl

/-! ## Claim C4: the fully transparent color lands at palette index 0 -/

/-- The comparator ranks the fully transparent color before any color with
nonzero alpha. -/
lemma sorterLess_transparent_first (f : NRGBA → Nat) (t x : NRGBA)
    (ht : t.A = 0) (hx : ¬ x.A = 0) : sorterLess f t x = true := by
  unfold sorterLess
  rw [ht]
  rw [if_neg (fun h => hx h.symm), if_pos rfl]

/-- The comparator never ranks a color with nonzero alpha before the fully
transparent color. -/
lemma sorterLess_never_before_transparent (f : NRGBA → Nat) (t x : NRGBA)
    (ht : t.A = 0) (hx : ¬ x.A = 0) : sorterLess f x t = false := by
  unfold sorterLess
  rw [ht]
  rw [if_neg hx, if_neg hx, if_pos rfl]

/-- The comparator on two copies of the same color is false: the uint
difference of equal counts is zero. -/
lemma sorterLess_self (f : NRGBA → Nat) (t : NRGBA) : sorterLess f t t = false := by
  unfold sorterLess
  rw [if_pos rfl, usub64_self]
  simp

/-- Inserting the transparent color into a reversed prefix made of opaque or
translucent colors followed by copies of the transparent color appends one
more copy at the transparent end. -/
lemma insRev_transparent (f : NRGBA → Nat) (t : NRGBA) (ht : t.A = 0) :
    ∀ (a : List NRGBA) (k : Nat), (∀ y ∈ a, ¬ y.A = 0) →
      insRev (sorterLess f) t (a ++ List.replicate k t)
        = a ++ List.replicate (k + 1) t := by
  intro a
  induction a with
  | nil =>
    intro k _
    cases k with
    | zero => simp [insRev]
    | succ k =>
      show insRev (sorterLess f) t (t :: List.replicate k t) = _
      unfold insRev
      rw [sorterLess_self f t]
      simp [List.replicate_succ]
  | cons z a ih =>
    intro k ha
    have hz : ¬ z.A = 0 := ha z (List.mem_cons_self z a)
    show insRev (sorterLess f) t (z :: (a ++ List.replicate k t)) = _
    unfold insRev
    rw [sorterLess_transparent_first f t z ht hz]
    simp only [if_true]
    rw [ih k (fun y hy => ha y (List.mem_cons_of_mem z hy))]
    rfl

/-- Inserting a color with nonzero alpha into such a reversed prefix keeps
the block of transparent copies at the end intact. -/
lemma insRev_nontransparent (f : NRGBA → Nat) (t x : NRGBA)
    (ht : t.A = 0) (hx : ¬ x.A = 0) :
    ∀ (a : List NRGBA) (k : Nat), (∀ y ∈ a, ¬ y.A = 0) →
      ∃ a2, insRev (sorterLess f) x (a ++ List.replicate k t)
          = a2 ++ List.replicate k t
        ∧ (∀ y ∈ a2, ¬ y.A = 0) := by
  intro a
  induction a with
  | nil =>
    intro k _
    cases k with
    | zero =>
      refine ⟨[x], by simp [insRev], ?_⟩
      intro y hy
      rw [List.mem_singleton.mp hy]
      exact hx
    | succ k =>
      refine ⟨[x], ?_, ?_⟩
      · show insRev (sorterLess f) x (t :: List.replicate k t) = _
        unfold insRev
        rw [sorterLess_never_before_transparent f t x ht hx]
        simp [List.replicate_succ]
      · intro y hy
        rw [List.mem_singleton.mp hy]
        exact hx
  | cons z a ih =>
    intro k ha
    have hz : ¬ z.A = 0 := ha z (List.mem_cons_self z a)
    show ∃ a2, insRev (sorterLess f) x (z :: (a ++ List.replicate k t)) = _ ∧ _
    unfold insRev
    cases hxz : sorterLess f x z with
    | true =>
      rcases ih k (fun y hy => ha y (List.mem_cons_of_mem z hy)) with ⟨a2, heq, ha2⟩
      refine ⟨z :: a2, ?_, ?_⟩
      · simp only [if_true]
        rw [heq]
        rfl
      · intro y hy
        rcases List.mem_cons.mp hy with h | h
        · rw [h]
          exact hz
        · exact ha2 y h
    | false =>
      refine ⟨x :: z :: a, by simp, ?_⟩
      intro y hy
      rcases List.mem_cons.mp hy with h | h
      · rw [h]
        exact hx
      · rcases List.mem_cons.mp h with h | h
        · rw [h]
          exact hz
        · exact ha y (List.mem_cons_of_mem z h)

/-- Main induction for C4: running the insertion sort over an enumeration
whose only fully transparent color is t keeps the invariant that the
reversed prefix is a block of nonzero-alpha colors followed by the copies of
t, and inserts at least one copy of t once t has been scanned. -/
lemma goInsSortRev_transparent_block (f : NRGBA → Nat) (t : NRGBA) (ht : t.A = 0) :
    ∀ (l a : List NRGBA) (k : Nat),
      (∀ y ∈ l, y.A = 0 → y = t) → (∀ y ∈ a, ¬ y.A = 0) →
      ∃ a2 k2, goInsSortRev (sorterLess f) (a ++ List.replicate k t) l
          = (a2 ++ List.replicate k2 t).reverse
        ∧ (∀ y ∈ a2, ¬ y.A = 0) ∧ k ≤ k2 ∧ (t ∈ l → k < k2) := by
  intro l
  induction l with
  | nil =>
    intro a k _ ha
    exact ⟨a, k, rfl, ha, Nat.le_refl k, by simp⟩
  | cons x l ih =>
    intro a k hl ha
    have hstep : goInsSortRev (sorterLess f) (a ++ List.replicate k t) (x :: l)
        = goInsSortRev (sorterLess f)
            (insRev (sorterLess f) x (a ++ List.replicate k t)) l := rfl
    by_cases hxA : x.A = 0
    · have hxt : x = t := hl x (List.mem_cons_self x l) hxA
      rcases ih a (k + 1) (fun y hy hy0 => hl y (List.mem_cons_of_mem x hy) hy0) ha
        with ⟨a2, k2, heq, ha2, hk, _⟩
      refine ⟨a2, k2, ?_, ha2, by omega, fun _ => by omega⟩
      rw [hstep, hxt, insRev_transparent f t ht a k ha]
      exact heq
    · rcases insRev_nontransparent f t x ht hxA a k ha with ⟨a2, heq2, ha2⟩
      rcases ih a2 k (fun y hy hy0 => hl y (List.mem_cons_of_mem x hy) hy0) ha2
        with ⟨a3, k3, heq3, ha3, hk, hkt⟩
      refine ⟨a3, k3, ?_, ha3, hk, ?_⟩
      · rw [hstep, heq2]
        exact heq3
      · intro htl
        rcases List.mem_cons.mp htl with h | h
        · have hxa : x.A = 0 := by
            rw [← h]
            exact ht
          exact absurd hxa hxA
        · exact hkt h

/-- C4: whenever exactly one fully transparent color occurs among the
enumerated distinct colors of the image, the palette built by the palette
builder places it at index 0, for every frequency table and every map
enumeration order. -/
theorem c4_transparent_first (pixels eo : List NRGBA) (hint : Nat) (t : NRGBA)
    (ht : t.A = 0) (hmem : t ∈ eo) (huniq : ∀ x ∈ eo, x.A = 0 → x = t) :
    (paletteFromNRGBA pixels eo hint).head? = some t := by
  rcases goInsSortRev_transparent_block (nrgbaFreq pixels) t ht eo [] 0 huniq
    (by simp) with ⟨a2, k2, heq, _, _, hkt⟩
  have hk : 0 < k2 := hkt hmem
  have heq2 : goInsSortRev (sorterLess (nrgbaFreq pixels)) [] eo
      = (a2 ++ List.replicate k2 t).reverse := heq
  show (goInsSortRev (sorterLess (nrgbaFreq pixels)) [] eo).head? = some t
  rw [heq2, List.reverse_append, List.reverse_replicate]
  cases k2 with
  | zero => omega
  | succ k =>
    rw [List.replicate_succ]
    rfl

/-- C4 witness: a three-pixel image with one transparent color enumerated
after the opaque one; the palette still starts with the transparent color. -/
theorem c4_transparent_first_witness :
    (paletteFromNRGBA
        [NRGBA.mk 1 2 3 0, NRGBA.mk 9 9 9 255, NRGBA.mk 9 9 9 255]
        [NRGBA.mk 9 9 9 255, NRGBA.mk 1 2 3 0] 2).head?
      = some (NRGBA.mk 1 2 3 0) :=
  c4_transparent_first
    [NRGBA.mk 1 2 3 0, NRGBA.mk 9 9 9 255, NRGBA.mk 9 9 9 255]
    [NRGBA.mk 9 9 9 255, NRGBA.mk 1 2 3 0] 2 (NRGBA.mk 1 2 3 0)
    (by decide) (by decide) (by decide)

end SBOpt
